import Mathlib

/-!
Verification model of the Random Universe Cipher WASM core
(`src/wasm/src/lib.rs`).

Bytes are modelled as `Nat` values; every operation that truncates in
Rust (`u8` shifts, `u16` wrapping multiplication, `& 0xFFFFFFFF`,
`wrapping_add` on `u64`) carries an explicit `% 2^w`.  The two external
cryptographic primitives, SHAKE256 (`shake256_hash`) and the ChaCha20
byte generator (`chacha20_generate`), are not part of this repository:
they are modelled as abstract functions `H G : List Nat -> Nat -> List Nat`
over which every definition and theorem is parameterised; where a proof
needs the fact that SHAKE256 returns exactly the requested number of
bytes, that fact appears as an explicit hypothesis.
-/

namespace RUC

/-- Big-endian 8-byte encoding of a 64-bit block number
(`block_number.to_be_bytes()` in the source). -/
def be_bytes8 (n : Nat) : List Nat :=
  (List.range 8).map (fun i => n / 2 ^ (8 * (7 - i)) % 256)

/-- Little-endian 2-byte encoding of a `u16` selector
(`selector.to_le_bytes()` in the source). -/
def le_bytes2 (n : Nat) : List Nat :=
  [n % 256, n / 256 % 256]

/-- Little-endian 32-bit read at `offset` (`u32::from_le_bytes` on
`random_bytes[offset..offset+4]`). -/
def le32 (bytes : List Nat) (offset : Nat) : Nat :=
  bytes.getD offset 0 + 256 * bytes.getD (offset + 1) 0 +
    65536 * bytes.getD (offset + 2) 0 + 16777216 * bytes.getD (offset + 3) 0

/-- Domain separator `b"RUC-SELECTOR-PRIORITY-V1"`. -/
def DOMAIN_PRIORITY : List Nat := "RUC-SELECTOR-PRIORITY-V1".toList.map Char.toNat

/-- Domain separator `b"RUC-KEYSTREAM-V1"`. -/
def DOMAIN_KEYSTREAM : List Nat := "RUC-KEYSTREAM-V1".toList.map Char.toNat

/-- GF(2^8) multiplication with the AES polynomial 0x1B (`gf_mul`).
Eight iterations of conditional accumulate, wrapping byte doubling with
conditional reduction, and halving of `b`. -/
def gf_mul (a b : Nat) : Nat :=
  ((List.range 8).foldl (fun s _ =>
    let r := if s.2.1 % 2 = 1 then s.2.2 ^^^ s.1 else s.2.2
    let hi := s.1 / 128 % 2 = 1
    let a2 := s.1 * 2 % 256
    let a3 := if hi then a2 ^^^ 27 else a2
    (a3, s.2.1 / 2, r)) (a, b, 0)).2.2

/-- `gf_mul_register`: multiply every byte of a 64-byte register by the
same scalar. -/
def gf_mul_register (reg : List Nat) (multiplier : Nat) : List Nat :=
  (List.range 64).map (fun i => gf_mul (reg.getD i 0) multiplier)

/-- `rotate_left_512`: rotate the 512-bit register left by `n` bits,
byte-wise exactly as the source computes it. -/
def rotate_left_512 (reg : List Nat) (n : Nat) : List Nat :=
  let byte_shift := n / 8
  let bit_shift := n % 8
  (List.range 64).map (fun i =>
    let src_idx := (i + byte_shift) % 64
    let next_idx := (i + byte_shift + 1) % 64
    let low := (reg.getD src_idx 0 <<< bit_shift) % 256
    let high := if bit_shift > 0 then reg.getD next_idx 0 >>> (8 - bit_shift) else 0
    low ||| high)

/-- `xor_512`: byte-wise XOR of two 64-byte registers. -/
def xor_512 (a b : List Nat) : List Nat :=
  (List.range 64).map (fun i => a.getD i 0 ^^^ b.getD i 0)

/-- `bytes_to_u64`: little-endian value of the first 8 bytes. -/
def bytes_to_u64 (bytes : List Nat) : Nat :=
  (List.range 8).foldl (fun acc i => acc + bytes.getD i 0 * 256 ^ i) 0

/-- The mutable cipher state (`CipherState`): 7 registers of 64 bytes, a
128-byte accumulator and the diagnostic 64-bit `accumulator_sum`. -/
structure CipherState where
  registers : List (List Nat)
  accumulator : List Nat
  accumulator_sum : Nat
deriving DecidableEq

/-- `CipherState::new`: each register copies its 64-byte slice of the key
material when the slice fits, otherwise stays zero; accumulator zeroed. -/
def CipherState.new (key_material_registers : List Nat) : CipherState :=
  { registers := (List.range 7).map (fun i =>
      if i * 64 + 64 ≤ key_material_registers.length then
        (key_material_registers.drop (i * 64)).take 64
      else List.replicate 64 0),
    accumulator := List.replicate 128 0,
    accumulator_sum := 0 }

/-! ### Selector ordering (`order_selectors`) -/

/-- The `(priority, index)` pairs built from the ChaCha20 byte stream:
priority `i` is the little-endian `u32` at offset `4*i`. -/
def priority_pairs (G : List Nat → Nat → List Nat) (seed : List Nat) (n : Nat) :
    List (Nat × Nat) :=
  let random_bytes := G seed (n * 4)
  (List.range n).map (fun i => (le32 random_bytes (4 * i), i))

/-- Comparison used to model Rust's stable `sort_by_key` on priorities:
lexicographic on (priority, original index).  Because the input pairs
carry strictly increasing indices, sorting by this total order is
exactly a stable sort by priority alone. -/
def lex_le (a b : Nat × Nat) : Prop :=
  a.1 < b.1 ∨ (a.1 = b.1 ∧ a.2 ≤ b.2)

instance : DecidableRel lex_le := fun a b =>
  inferInstanceAs (Decidable (a.1 < b.1 ∨ (a.1 = b.1 ∧ a.2 ≤ b.2)))

instance : IsTotal (Nat × Nat) lex_le :=
  ⟨fun a b => by
    rcases Nat.lt_trichotomy a.1 b.1 with h | h | h
    · exact Or.inl (Or.inl h)
    · rcases Nat.le_total a.2 b.2 with h2 | h2
      · exact Or.inl (Or.inr ⟨h, h2⟩)
      · exact Or.inr (Or.inr ⟨h.symm, h2⟩)
    · exact Or.inr (Or.inl h)⟩

instance : IsTrans (Nat × Nat) lex_le :=
  ⟨fun a b c hab hbc => by
    rcases hab with h1 | ⟨h1, h1i⟩ <;> rcases hbc with h2 | ⟨h2, h2i⟩
    · exact Or.inl (Nat.lt_trans h1 h2)
    · exact Or.inl (h2 ▸ h1)
    · exact Or.inl (h1 ▸ h2)
    · exact Or.inr ⟨h1.trans h2, Nat.le_trans h1i h2i⟩⟩

/-- The sorted `(priority, index)` pairs for one block: seed from
SHAKE256 over `key || iv || be64(block) || DOMAIN_PRIORITY`, priorities
from the ChaCha20 stream, then the stable sort. -/
def ordered_priority_pairs (H G : List Nat → Nat → List Nat)
    (selectors key iv : List Nat) (block_number : Nat) : List (Nat × Nat) :=
  let seed_data := key ++ iv ++ be_bytes8 block_number ++ DOMAIN_PRIORITY
  let seed := H seed_data 32
  List.insertionSort lex_le (priority_pairs G seed selectors.length)

/-- `order_selectors`: the selector values read back in sorted-index
order. -/
def order_selectors (H G : List Nat → Nat → List Nat)
    (selectors key iv : List Nat) (block_number : Nat) : List Nat :=
  (ordered_priority_pairs H G selectors key iv block_number).map
    (fun pi => selectors.getD pi.2 0)

/-! ### The round function (`execute_round_wasm`) -/

/-- Destination-register selection for one selector (source step:
`dest_val = (r0 ^ u64::from(sel) ^ round_key_u64) & 0xFFFFFFFF`,
`place_idx = dest_val % 7`). -/
def selector_place (st : CipherState) (sel : Nat) (round_key : List Nat) : Nat :=
  (bytes_to_u64 (st.registers.getD 0 []) ^^^ sel ^^^ bytes_to_u64 round_key) % 2 ^ 32 % 7

/-- `temp = (sel * 2) & 0xFFFF`: the doubling is `u16` arithmetic, which
wraps (two's-complement overflow semantics of the release build the WASM
artifact ships with), and the mask is then the identity on a `u16`. -/
def selector_temp (sel : Nat) : Nat := sel * 2 % 65536

/-- The GF-multiplication stage of one selector step:
`gf_mul(temp & 0xFF, registers[place][0])`. -/
def selector_gf_result (st : CipherState) (sel : Nat) (round_key : List Nat) : Nat :=
  gf_mul (selector_temp sel % 256) ((st.registers.getD (selector_place st sel round_key) []).getD 0 0)

/-- A 64-byte register that is zero except for value `v` at byte `pos`
(the `shifted_bytes` / `sbox_bytes` temporaries of the source). -/
def single_byte_register (pos v : Nat) : List Nat :=
  (List.range 64).map (fun j => if j = pos then v else 0)

/-- One selector step of the round function: the body of the
`for (sel_idx, &sel) in selectors.iter().enumerate()` loop. -/
def process_selector (sbox round_key key_constants : List Nat)
    (st : CipherState) (sel_idx sel : Nat) : CipherState :=
  let place := selector_place st sel round_key
  let gf0 := selector_gf_result st sel round_key
  let gf1 := if sel_idx < key_constants.length then gf0 ^^^ key_constants.getD sel_idx 0 else gf0
  let result := sbox.getD gf1 0
  let reg1 := gf_mul_register (st.registers.getD place []) result
  let shift_amount := sel % 16
  let shifted_bytes := if shift_amount < 8 then
      single_byte_register 0 ((result <<< shift_amount) % 256)
    else List.replicate 64 0
  let reg2 := xor_512 reg1 shifted_bytes
  let low_byte := reg2.getD 63 0
  let reg3 := xor_512 reg2 (single_byte_register 63 (sbox.getD low_byte 0))
  let reg4 := rotate_left_512 reg3 1
  let reg5 := xor_512 reg4 (st.registers.getD ((place + 1) % 7) [])
  { st with registers := st.registers.set place reg5,
            accumulator_sum := (st.accumulator_sum + result) % 2 ^ 64 }

/-- Inter-round diffusion: the sequential, in-place
`registers[i] ^= registers[(i+1)%7]; registers[i] ^= registers[(i+2)%7]`
loop for `i = 0..6` (later indices observe earlier mutations). -/
def inter_round_mix (st : CipherState) : CipherState :=
  { st with registers := (List.range 7).foldl (fun regs i =>
      let regs1 := regs.set i (xor_512 (regs.getD i []) (regs.getD ((i + 1) % 7) []))
      regs1.set i (xor_512 (regs1.getD i []) (regs1.getD ((i + 2) % 7) []))) st.registers }

/-- `execute_round_wasm`: silently a no-op when the round key is shorter
than 64 bytes or the S-box shorter than 256 entries; otherwise process
every selector in order, then apply inter-round diffusion. -/
def execute_round_wasm (state : CipherState) (round_index : Nat) (selectors : List Nat)
    (sbox round_key_bytes key_constants : List Nat) : CipherState :=
  if round_key_bytes.length < 64 ∨ sbox.length < 256 then state
  else
    let round_key := round_key_bytes.take 64
    let st1 := selectors.enum.foldl
      (fun st p => process_selector sbox round_key key_constants st p.1 p.2) state
    inter_round_mix st1

/-! ### Keystream, feedback, and the batch pipeline -/

/-- `generate_keystream`: SHAKE256 over
`registers || accumulator || be64(block) || DOMAIN_KEYSTREAM`, 32 bytes. -/
def generate_keystream (H : List Nat → Nat → List Nat)
    (state : CipherState) (block_number : Nat) : List Nat :=
  H (state.registers.flatten ++ state.accumulator ++ be_bytes8 block_number ++ DOMAIN_KEYSTREAM) 32

/-- `apply_ciphertext_feedback`: for register `i` with
`feedback_shift = (i*37) % 256`, XOR into byte `j` the ciphertext byte
`ciphertext[j % 32]`, left-shifted by `feedback_shift` when that shift is
below 8 and taken raw otherwise. -/
def apply_ciphertext_feedback (st : CipherState) (ciphertext : List Nat) : CipherState :=
  { st with registers := (List.range 7).foldl (fun regs i =>
      let feedback_shift := i * 37 % 256
      regs.set i ((List.range 64).map (fun j =>
        let ciphertext_byte := ciphertext.getD (j % 32) 0
        let shifted := if feedback_shift < 8 then (ciphertext_byte <<< feedback_shift) % 256
          else ciphertext_byte
        (regs.getD i []).getD j 0 ^^^ shifted))) st.registers }

/-- Comparator for claim C10, following the claim's words: ciphertext
feedback XORs the raw byte `ciphertext[j mod 32]` into `registers[i][j]`
for every register `i` and byte position `j`, with no shift applied. -/
def apply_ciphertext_feedback_raw (st : CipherState) (ciphertext : List Nat) : CipherState :=
  { st with registers := (List.range 7).foldl (fun regs i =>
      regs.set i ((List.range 64).map (fun j =>
        (regs.getD i []).getD j 0 ^^^ ciphertext.getD (j % 32) 0))) st.registers }

/-- One step of the 24-round loop of the batch processor: run
`execute_round_wasm` on the round's 256-byte S-box slice and 64-byte
round-key slice, skipping the round when either slice is undersized. -/
def batch_round_step (sboxes round_keys ordered_selectors key_constants : List Nat)
    (st : CipherState) (round : Nat) : CipherState :=
  if round * 256 + 256 ≤ sboxes.length ∧ round * 64 + 64 ≤ round_keys.length then
    execute_round_wasm st round ordered_selectors
      ((sboxes.drop (round * 256)).take 256)
      ((round_keys.drop (round * 64)).take 64)
      key_constants
  else st

/-- Steps 1–5 of the per-block pipeline: fresh state, reset accumulator,
order selectors, precompute key constants, run the 24 rounds.  This is
the state `generate_keystream` reads. -/
def state_before_keystream (H G : List Nat → Nat → List Nat)
    (key iv key_material selectors sboxes round_keys : List Nat)
    (block_number : Nat) : CipherState :=
  let st0 := CipherState.new key_material
  let st1 := { st0 with accumulator := List.replicate 128 0, accumulator_sum := 0 }
  let ordered := order_selectors H G selectors key iv block_number
  let key_constants := ordered.map (fun sel => (H (le_bytes2 sel ++ key) 1).getD 0 0)
  (List.range 24).foldl (batch_round_step sboxes round_keys ordered key_constants) st1

/-- The 32-byte keystream of one block (pure in the parameters and the
block number; independent of the data being transformed). -/
def block_keystream (H G : List Nat → Nat → List Nat)
    (key iv key_material selectors sboxes round_keys : List Nat)
    (block_number : Nat) : List Nat :=
  generate_keystream H
    (state_before_keystream H G key iv key_material selectors sboxes round_keys block_number)
    block_number

/-- Steps 6–8 of the per-block pipeline: XOR the 32-byte data block with
the keystream (`for i in 0..BLOCK_SIZE.min(plaintext_block.len())` over a
zero-initialised output array), then apply ciphertext feedback to the
state.  Returns the ciphertext block and the fed-back (then discarded)
state. -/
def process_block (H G : List Nat → Nat → List Nat)
    (key iv key_material selectors sboxes round_keys : List Nat)
    (data_block : List Nat) (block_number : Nat) : List Nat × CipherState :=
  let st := state_before_keystream H G key iv key_material selectors sboxes round_keys block_number
  let keystream := generate_keystream H st block_number
  let ciphertext := (List.range 32).map (fun i =>
    if i < min 32 data_block.length then data_block.getD i 0 ^^^ keystream.getD i 0 else 0)
  (ciphertext, apply_ciphertext_feedback st ciphertext)

/-- The block loop of `encrypt_blocks_batch`: `remaining` counts the
iterations left of `for block_idx in 0..num_blocks`; the inner
bounds-check `break` is kept verbatim. -/
def encrypt_go (H G : List Nat → Nat → List Nat)
    (key iv key_material selectors sboxes round_keys data : List Nat)
    (start : Nat) : Nat → Nat → List Nat
  | _, 0 => []
  | block_idx, remaining + 1 =>
    if data.length < block_idx * 32 + 32 then []
    else
      (process_block H G key iv key_material selectors sboxes round_keys
          ((data.drop (block_idx * 32)).take 32) (start + block_idx)).1 ++
        encrypt_go H G key iv key_material selectors sboxes round_keys data start
          (block_idx + 1) remaining

/-- `encrypt_blocks_batch`: process `len(input) / 32` complete blocks. -/
def encrypt_blocks_batch (H G : List Nat → Nat → List Nat)
    (plaintext_blocks key iv : List Nat) (start_block_number : Nat)
    (key_material_registers selectors sboxes round_keys : List Nat) : List Nat :=
  encrypt_go H G key iv key_material_registers selectors sboxes round_keys
    plaintext_blocks start_block_number 0 (plaintext_blocks.length / 32)

/-- `decrypt_blocks_batch`: literally the same pipeline. -/
def decrypt_blocks_batch (H G : List Nat → Nat → List Nat)
    (ciphertext_blocks key iv : List Nat) (start_block_number : Nat)
    (key_material_registers selectors sboxes round_keys : List Nat) : List Nat :=
  encrypt_blocks_batch H G ciphertext_blocks key iv start_block_number
    key_material_registers selectors sboxes round_keys

/-- The all-zero cipher state: 7 zero registers, zero accumulator. -/
def zeroState : CipherState :=
  { registers := List.replicate 7 (List.replicate 64 0),
    accumulator := List.replicate 128 0,
    accumulator_sum := 0 }

/-- 24 identity S-boxes (`sbox[i] = i`), flattened to 24 × 256 bytes. -/
def identity_sboxes : List Nat := (List.replicate 24 (List.range 256)).flatten

/-! ### Variant pipeline without ciphertext feedback (for claim C7) -/

/-- The per-block pipeline with the `apply_ciphertext_feedback` call
omitted; everything else identical. -/
def process_block_no_feedback (H G : List Nat → Nat → List Nat)
    (key iv key_material selectors sboxes round_keys : List Nat)
    (data_block : List Nat) (block_number : Nat) : List Nat :=
  let st := state_before_keystream H G key iv key_material selectors sboxes round_keys block_number
  let keystream := generate_keystream H st block_number
  (List.range 32).map (fun i =>
    if i < min 32 data_block.length then data_block.getD i 0 ^^^ keystream.getD i 0 else 0)

/-- Block loop of the feedback-free variant. -/
def encrypt_go_no_feedback (H G : List Nat → Nat → List Nat)
    (key iv key_material selectors sboxes round_keys data : List Nat)
    (start : Nat) : Nat → Nat → List Nat
  | _, 0 => []
  | block_idx, remaining + 1 =>
    if data.length < block_idx * 32 + 32 then []
    else
      process_block_no_feedback H G key iv key_material selectors sboxes round_keys
          ((data.drop (block_idx * 32)).take 32) (start + block_idx) ++
        encrypt_go_no_feedback H G key iv key_material selectors sboxes round_keys data start
          (block_idx + 1) remaining

/-- Batch encryption with the ciphertext-feedback call omitted. -/
def encrypt_blocks_batch_no_feedback (H G : List Nat → Nat → List Nat)
    (plaintext_blocks key iv : List Nat) (start_block_number : Nat)
    (key_material_registers selectors sboxes round_keys : List Nat) : List Nat :=
  encrypt_go_no_feedback H G key iv key_material_registers selectors sboxes round_keys
    plaintext_blocks start_block_number 0 (plaintext_blocks.length / 32)

/-! ### Helper lemmas -/

lemma getD_map_range (f : Nat → Nat) {n i : Nat} (h : i < n) (d : Nat) :
    ((List.range n).map f).getD i d = f i := by
  rw [List.getD_eq_getElem _ _ (by simpa using h)]
  simp

lemma map_getD_range (l : List Nat) : (List.range l.length).map (fun i => l.getD i 0) = l := by
  apply List.ext_getElem
  · simp
  · intro i h1 h2
    simp only [List.getElem_map, List.getElem_range]
    exact List.getD_eq_getElem l 0 h2

lemma process_block_fst_length (H G : List Nat → Nat → List Nat)
    (key iv km sels sboxes rks d : List Nat) (bn : Nat) :
    (process_block H G key iv km sels sboxes rks d bn).1.length = 32 := by
  simp [process_block]

lemma encrypt_go_length (H G : List Nat → Nat → List Nat)
    (key iv km sels sboxes rks data : List Nat) (start : Nat) :
    ∀ remaining block_idx, (block_idx + remaining) * 32 ≤ data.length →
      (encrypt_go H G key iv km sels sboxes rks data start block_idx remaining).length =
        remaining * 32 := by
  intro remaining
  induction remaining with
  | zero => intro block_idx _; simp [encrypt_go]
  | succ r ih =>
    intro block_idx h
    rw [encrypt_go]
    rw [if_neg (by omega)]
    rw [List.length_append, process_block_fst_length, ih (block_idx + 1) (by omega)]
    omega

/-! ### Claim theorems (first group) -/

/-- C2: for every input, `encrypt_blocks_batch` (and `decrypt_blocks_batch`)
returns exactly `floor(len/32) * 32` bytes: each complete 32-byte block
yields one 32-byte output block and a trailing partial block is silently
dropped. -/
theorem claim_C2_output_length (H G : List Nat → Nat → List Nat)
    (input key iv : List Nat) (start : Nat) (km sels sboxes rks : List Nat) :
    (encrypt_blocks_batch H G input key iv start km sels sboxes rks).length =
      input.length / 32 * 32 ∧
    (decrypt_blocks_batch H G input key iv start km sels sboxes rks).length =
      input.length / 32 * 32 := by
  have h : (0 + input.length / 32) * 32 ≤ input.length := by
    simpa using Nat.div_mul_le_self input.length 32
  constructor
  · exact encrypt_go_length H G key iv km sels sboxes rks input start _ 0 h
  · exact encrypt_go_length H G key iv km sels sboxes rks input start _ 0 h

/-- C5: `execute_round_wasm` is a silent no-op (state returned unchanged)
when the round key is shorter than 64 bytes or the S-box has fewer than
256 entries; and the batch processor's round step skips the round
entirely when that round's slice of the flattened S-boxes or round keys
is undersized. -/
theorem claim_C5_undersized_noop (st : CipherState) (round : Nat)
    (sels sbox rk kc sboxes rks ordered kcs : List Nat) :
    (rk.length < 64 ∨ sbox.length < 256 →
      execute_round_wasm st round sels sbox rk kc = st) ∧
    (¬(round * 256 + 256 ≤ sboxes.length ∧ round * 64 + 64 ≤ rks.length) →
      batch_round_step sboxes rks ordered kcs st round = st) := by
  constructor
  · intro h
    unfold execute_round_wasm
    rw [if_pos h]
  · intro h
    unfold batch_round_step
    rw [if_neg h]

theorem claim_C5_undersized_noop_witness :
    ((List.replicate 63 0 : List Nat).length < 64 ∨ ([] : List Nat).length < 256) ∧
    execute_round_wasm (CipherState.new []) 0 [1, 2] [] (List.replicate 63 0) [] =
      CipherState.new [] ∧
    ¬((0 : Nat) * 256 + 256 ≤ ([] : List Nat).length ∧ 0 * 64 + 64 ≤ ([] : List Nat).length) ∧
    batch_round_step [] [] [1, 2] [] (CipherState.new []) 0 = CipherState.new [] :=
  ⟨by decide,
   (claim_C5_undersized_noop (CipherState.new []) 0 [1, 2] [] (List.replicate 63 0) [] [] [] [1, 2] []).1
     (by decide),
   by decide,
   (claim_C5_undersized_noop (CipherState.new []) 0 [1, 2] [] (List.replicate 63 0) [] [] [] [1, 2] []).2
     (by decide)⟩

/-- C9: for every 16-bit selector, including those at or above 0x8000,
the round function's `temp` is the wrapping 16-bit double `(2*sel) mod 2^16`
(always in range, never a fault), and its low byte is fed to `gf_mul`
against the first byte of the destination register. -/
theorem claim_C9_wrapping_double (sel : Nat) (hsel : sel < 2 ^ 16) :
    selector_temp sel = 2 * sel % 2 ^ 16 ∧ selector_temp sel < 2 ^ 16 ∧
    ∀ (st : CipherState) (rk : List Nat),
      selector_gf_result st sel rk =
        gf_mul (2 * sel % 2 ^ 16 % 2 ^ 8)
          ((st.registers.getD (selector_place st sel rk) []).getD 0 0) := by
  refine ⟨by unfold selector_temp; ring_nf, ?_, ?_⟩
  · unfold selector_temp
    exact Nat.mod_lt _ (by norm_num)
  · intro st rk
    unfold selector_gf_result selector_temp
    norm_num [Nat.mul_comm]

theorem claim_C9_wrapping_double_witness :
    (40000 : Nat) < 2 ^ 16 ∧
    selector_temp 40000 = 2 * 40000 % 2 ^ 16 ∧ selector_temp 40000 < 2 ^ 16 ∧
    selector_gf_result (CipherState.new []) 40000 [] =
      gf_mul (2 * 40000 % 2 ^ 16 % 2 ^ 8)
        (((CipherState.new []).registers.getD (selector_place (CipherState.new []) 40000 []) []).getD 0 0) :=
  ⟨by norm_num,
   (claim_C9_wrapping_double 40000 (by norm_num)).1,
   (claim_C9_wrapping_double 40000 (by norm_num)).2.1,
   (claim_C9_wrapping_double 40000 (by norm_num)).2.2 (CipherState.new []) []⟩

lemma encrypt_go_eq_no_feedback (H G : List Nat → Nat → List Nat)
    (key iv km sels sboxes rks data : List Nat) (start : Nat) :
    ∀ remaining block_idx,
      encrypt_go H G key iv km sels sboxes rks data start block_idx remaining =
        encrypt_go_no_feedback H G key iv km sels sboxes rks data start block_idx remaining := by
  intro remaining
  induction remaining with
  | zero => intro _; rfl
  | succ r ih =>
    intro block_idx
    rw [encrypt_go, encrypt_go_no_feedback]
    by_cases h : data.length < block_idx * 32 + 32
    · rw [if_pos h, if_pos h]
    · rw [if_neg h, if_neg h, ih]
      rfl

/-- C7: the batch output is byte-for-byte identical to the variant
pipeline that omits the `apply_ciphertext_feedback` call: the feedback
mutates a per-block state that is discarded before the next block's
state is built fresh. -/
theorem claim_C7_feedback_unobservable (H G : List Nat → Nat → List Nat)
    (input key iv : List Nat) (start : Nat) (km sels sboxes rks : List Nat) :
    encrypt_blocks_batch H G input key iv start km sels sboxes rks =
      encrypt_blocks_batch_no_feedback H G input key iv start km sels sboxes rks := by
  unfold encrypt_blocks_batch encrypt_blocks_batch_no_feedback
  exact encrypt_go_eq_no_feedback H G key iv km sels sboxes rks input start _ 0

/-- C3: `order_selectors` returns a permutation of the input selector
list — same length and multiset, nothing added, removed, or duplicated.
(Determinism and purity hold by construction: the model is a function of
exactly `(key, iv, block index, selector list)` and the two abstract
primitives.) -/
theorem claim_C3_permutation (H G : List Nat → Nat → List Nat)
    (selectors key iv : List Nat) (block_number : Nat) :
    List.Perm (order_selectors H G selectors key iv block_number) selectors := by
  unfold order_selectors ordered_priority_pairs
  have hperm := List.perm_insertionSort lex_le
    (priority_pairs G (H (key ++ iv ++ be_bytes8 block_number ++ DOMAIN_PRIORITY) 32)
      selectors.length)
  refine (hperm.map (fun pi : Nat × Nat => selectors.getD pi.2 0)).trans ?_
  unfold priority_pairs
  rw [List.map_map]
  rw [show ((fun pi : Nat × Nat => selectors.getD pi.2 0) ∘ fun i =>
      (le32 (G (H (key ++ iv ++ be_bytes8 block_number ++ DOMAIN_PRIORITY) 32)
        (selectors.length * 4)) (4 * i), i)) = fun i => selectors.getD i 0 from rfl]
  rw [map_getD_range]

/-- C4: the priority sort is stable: if two positions of the sorted
(priority, original index) list carry equal priorities, their original
indices appear in increasing order — ties preserve the input's relative
order. -/
theorem claim_C4_stable_ties (H G : List Nat → Nat → List Nat)
    (selectors key iv : List Nat) (block_number : Nat) (a b : Nat) (hab : a < b)
    (hb : b < (ordered_priority_pairs H G selectors key iv block_number).length)
    (heq : ((ordered_priority_pairs H G selectors key iv block_number).getD a (0, 0)).1 =
      ((ordered_priority_pairs H G selectors key iv block_number).getD b (0, 0)).1) :
    ((ordered_priority_pairs H G selectors key iv block_number).getD a (0, 0)).2 <
      ((ordered_priority_pairs H G selectors key iv block_number).getD b (0, 0)).2 := by
  set ps := priority_pairs G (H (key ++ iv ++ be_bytes8 block_number ++ DOMAIN_PRIORITY) 32)
    selectors.length with hps
  set L := ordered_priority_pairs H G selectors key iv block_number with hLdef
  have hL : L = List.insertionSort lex_le ps := rfl
  have ha : a < L.length := Nat.lt_trans hab hb
  have hsorted : L.Sorted lex_le := hL ▸ List.sorted_insertionSort lex_le ps
  have hrel : lex_le (L.get ⟨a, ha⟩) (L.get ⟨b, hb⟩) :=
    hsorted.rel_get_of_lt (show (⟨a, ha⟩ : Fin L.length) < ⟨b, hb⟩ from hab)
  have hperm : List.Perm L ps := hL ▸ List.perm_insertionSort lex_le ps
  have hsnd : ps.map Prod.snd = List.range selectors.length := by
    unfold_let ps
    unfold priority_pairs
    rw [List.map_map]
    exact List.map_id _
  have hnodup : (L.map Prod.snd).Nodup := by
    rw [(hperm.map Prod.snd).nodup_iff, hsnd]
    exact List.nodup_range _
  rw [List.getD_eq_getElem L (0, 0) ha, List.getD_eq_getElem L (0, 0) hb] at heq ⊢
  have hrel2 : lex_le L[a] L[b] := by
    simpa [List.get_eq_getElem] using hrel
  have hneq2 : (L[a]).2 ≠ (L[b]).2 := by
    intro hcontra
    have hma : a < (L.map Prod.snd).length := by simpa using ha
    have hmb : b < (L.map Prod.snd).length := by simpa using hb
    have h1 : (L.map Prod.snd)[a] = (L.map Prod.snd)[b] := by
      simpa using hcontra
    have h2 : a = b := hnodup.getElem_inj_iff.mp h1
    omega
  rcases hrel2 with hlt | ⟨hfst, hsndle⟩
  · omega
  · omega

theorem claim_C4_stable_ties_witness :
    (0 : Nat) < 1 ∧
    1 < (ordered_priority_pairs (fun _ n => List.replicate n 0)
      (fun _ n => List.replicate n 0) [5, 9] [] [] 0).length ∧
    ((ordered_priority_pairs (fun _ n => List.replicate n 0)
      (fun _ n => List.replicate n 0) [5, 9] [] [] 0).getD 0 (0, 0)).1 =
      ((ordered_priority_pairs (fun _ n => List.replicate n 0)
        (fun _ n => List.replicate n 0) [5, 9] [] [] 0).getD 1 (0, 0)).1 ∧
    ((ordered_priority_pairs (fun _ n => List.replicate n 0)
      (fun _ n => List.replicate n 0) [5, 9] [] [] 0).getD 0 (0, 0)).2 <
      ((ordered_priority_pairs (fun _ n => List.replicate n 0)
        (fun _ n => List.replicate n 0) [5, 9] [] [] 0).getD 1 (0, 0)).2 :=
  ⟨Nat.zero_lt_one, by decide, by decide,
   claim_C4_stable_ties (fun _ n => List.replicate n 0) (fun _ n => List.replicate n 0)
     [5, 9] [] [] 0 0 1 Nat.zero_lt_one (by decide) (by decide)⟩

/-! ### Accumulator invariance (claim C8) -/

lemma foldl_accumulator_eq {α : Type} (f : CipherState → α → CipherState)
    (hf : ∀ s a, (f s a).accumulator = s.accumulator) :
    ∀ (l : List α) (s : CipherState), (l.foldl f s).accumulator = s.accumulator := by
  intro l
  induction l with
  | nil => intro s; rfl
  | cons x xs ih => intro s; rw [List.foldl_cons, ih, hf]

lemma process_selector_accumulator (sbox rk kc : List Nat) (st : CipherState)
    (sel_idx sel : Nat) :
    (process_selector sbox rk kc st sel_idx sel).accumulator = st.accumulator := by
  simp [process_selector]

lemma inter_round_mix_accumulator (st : CipherState) :
    (inter_round_mix st).accumulator = st.accumulator := rfl

lemma execute_round_wasm_accumulator (st : CipherState) (round : Nat)
    (sels sbox rk kc : List Nat) :
    (execute_round_wasm st round sels sbox rk kc).accumulator = st.accumulator := by
  unfold execute_round_wasm
  by_cases h : rk.length < 64 ∨ sbox.length < 256
  · rw [if_pos h]
  · rw [if_neg h]
    rw [inter_round_mix_accumulator]
    exact foldl_accumulator_eq _
      (fun s (p : Nat × Nat) => process_selector_accumulator _ _ _ s p.1 p.2) _ st

lemma batch_round_step_accumulator (sboxes rks ordered kcs : List Nat)
    (st : CipherState) (round : Nat) :
    (batch_round_step sboxes rks ordered kcs st round).accumulator = st.accumulator := by
  unfold batch_round_step
  by_cases h : round * 256 + 256 ≤ sboxes.length ∧ round * 64 + 64 ≤ rks.length
  · rw [if_pos h, execute_round_wasm_accumulator]
  · rw [if_neg h]

lemma apply_ciphertext_feedback_accumulator (st : CipherState) (ct : List Nat) :
    (apply_ciphertext_feedback st ct).accumulator = st.accumulator := rfl

/-- C8: the 128-byte accumulator is all zero at the moment
`generate_keystream` reads it — it is zeroed at block start and neither
the round function nor ciphertext feedback ever writes it — so the
accumulator portion of the keystream hash input is always 128 zero
bytes. -/
theorem claim_C8_accumulator_zero (H G : List Nat → Nat → List Nat)
    (key iv km sels sboxes rks : List Nat) (block_number : Nat) :
    (state_before_keystream H G key iv km sels sboxes rks block_number).accumulator =
      List.replicate 128 0 ∧
    (∀ (st : CipherState) (ct : List Nat),
      (apply_ciphertext_feedback st ct).accumulator = st.accumulator) := by
  constructor
  · unfold state_before_keystream
    exact foldl_accumulator_eq _ (batch_round_step_accumulator sboxes rks _ _) _ _
  · exact apply_ciphertext_feedback_accumulator

/-! ### Feedback shift is the identity (claim C10) -/

lemma getD_lt_256 {l : List Nat} (h : ∀ x ∈ l, x < 256) (k : Nat) : l.getD k 0 < 256 := by
  by_cases hk : k < l.length
  · rw [List.getD_eq_getElem _ _ hk]
    exact h _ (l.getElem_mem hk)
  · rw [List.getD_eq_default _ _ (Nat.le_of_not_lt hk)]
    norm_num

/-- C10: because the per-register shift `(i*37) mod 256` is 0 for
register 0 and at least 8 (hence disabled) for registers 1–6, the
shifted value always equals the raw ciphertext byte: ciphertext feedback
is exactly `registers[i][j] ^= ciphertext[j mod 32]` for every register
and every byte position. -/
theorem claim_C10_feedback_shift_identity (st : CipherState) (ct : List Nat)
    (hbytes : ∀ x ∈ ct, x < 256) :
    apply_ciphertext_feedback st ct = apply_ciphertext_feedback_raw st ct := by
  unfold apply_ciphertext_feedback apply_ciphertext_feedback_raw
  congr 1
  apply List.foldl_ext
  intro regs i hi
  have hi7 : i < 7 := List.mem_range.mp hi
  dsimp only
  congr 1
  apply List.map_congr_left
  intro j _
  set cb := ct.getD (j % 32) 0 with hcbdef
  have hcb : cb < 256 := getD_lt_256 hbytes _
  interval_cases i <;> simp [Nat.mod_eq_of_lt hcb]

theorem claim_C10_feedback_shift_identity_witness :
    (∀ x ∈ List.replicate 32 7, x < 256) ∧
    apply_ciphertext_feedback (CipherState.new []) (List.replicate 32 7) =
      apply_ciphertext_feedback_raw (CipherState.new []) (List.replicate 32 7) :=
  ⟨by decide,
   claim_C10_feedback_shift_identity (CipherState.new []) (List.replicate 32 7) (by decide)⟩

/-! ### Round-trip (claim C1) -/

lemma take_add' {α : Type} : ∀ (m : Nat) (l : List α) (n : Nat),
    l.take (m + n) = l.take m ++ (l.drop m).take n := by
  intro m
  induction m with
  | zero => intro l n; simp
  | succ k ih =>
    intro l n
    cases l with
    | nil => simp
    | cons a t =>
      rw [show k + 1 + n = (k + n) + 1 from by omega]
      rw [List.take_cons_succ, List.take_cons_succ, List.drop_succ_cons, ih]
      rfl

lemma process_block_fst_getD (H G : List Nat → Nat → List Nat)
    (key iv km sels sboxes rks d : List Nat) (bn i : Nat)
    (hd : d.length = 32) (hi : i < 32) :
    (process_block H G key iv km sels sboxes rks d bn).1.getD i 0 =
      d.getD i 0 ^^^ (block_keystream H G key iv km sels sboxes rks bn).getD i 0 := by
  unfold process_block block_keystream
  dsimp only
  rw [getD_map_range _ hi]
  rw [hd]
  simp [hi]

lemma process_block_double (H G : List Nat → Nat → List Nat)
    (key iv km sels sboxes rks d : List Nat) (bn : Nat) (hd : d.length = 32) :
    (process_block H G key iv km sels sboxes rks
      (process_block H G key iv km sels sboxes rks d bn).1 bn).1 = d := by
  have hc : (process_block H G key iv km sels sboxes rks d bn).1.length = 32 :=
    process_block_fst_length H G key iv km sels sboxes rks d bn
  apply List.ext_getElem
  · rw [process_block_fst_length, hd]
  · intro i h1 h2
    have hi : i < 32 := by
      rw [process_block_fst_length] at h1
      exact h1
    rw [← List.getD_eq_getElem _ 0 h1, ← List.getD_eq_getElem _ 0 h2]
    rw [process_block_fst_getD H G key iv km sels sboxes rks _ bn i hc hi]
    rw [process_block_fst_getD H G key iv km sels sboxes rks d bn i hd hi]
    rw [Nat.xor_assoc, Nat.xor_self, Nat.xor_zero]

lemma encrypt_go_extract (H G : List Nat → Nat → List Nat)
    (key iv km sels sboxes rks data : List Nat) (start : Nat) :
    ∀ remaining block_idx j, j < remaining →
      (block_idx + remaining) * 32 ≤ data.length →
      ((encrypt_go H G key iv km sels sboxes rks data start block_idx remaining).drop
          (j * 32)).take 32 =
        (process_block H G key iv km sels sboxes rks
          ((data.drop ((block_idx + j) * 32)).take 32) (start + (block_idx + j))).1 := by
  intro remaining
  induction remaining with
  | zero => intro block_idx j hj _; omega
  | succ r ih =>
    intro block_idx j hj hlen
    rw [encrypt_go, if_neg (by omega)]
    cases j with
    | zero =>
      rw [Nat.zero_mul, List.drop_zero]
      rw [List.take_left'
        (process_block_fst_length H G key iv km sels sboxes rks _ _)]
      rw [Nat.add_zero]
    | succ j2 =>
      rw [show (j2 + 1) * 32 = 32 + j2 * 32 from by ring, ← List.drop_drop]
      rw [List.drop_left'
        (process_block_fst_length H G key iv km sels sboxes rks _ _)]
      rw [ih (block_idx + 1) j2 (by omega) (by omega)]
      rw [show block_idx + 1 + j2 = block_idx + (j2 + 1) from by omega]

lemma decrypt_go_roundtrip (H G : List Nat → Nat → List Nat)
    (key iv km sels sboxes rks data : List Nat) (start num : Nat)
    (hdata : data.length = num * 32) :
    ∀ remaining block_idx, block_idx + remaining ≤ num →
      encrypt_go H G key iv km sels sboxes rks
          (encrypt_go H G key iv km sels sboxes rks data start 0 num) start
          block_idx remaining =
        (data.drop (block_idx * 32)).take (remaining * 32) := by
  have hE : (encrypt_go H G key iv km sels sboxes rks data start 0 num).length = num * 32 :=
    encrypt_go_length H G key iv km sels sboxes rks data start num 0 (by omega)
  intro remaining
  induction remaining with
  | zero => intro block_idx _; simp [encrypt_go]
  | succ r ih =>
    intro block_idx h
    rw [encrypt_go, if_neg (by omega)]
    rw [encrypt_go_extract H G key iv km sels sboxes rks data start num 0 block_idx
      (by omega) (by omega)]
    simp only [Nat.zero_add] at *
    have hslice : ((data.drop (block_idx * 32)).take 32).length = 32 := by
      rw [List.length_take, List.length_drop]
      omega
    rw [process_block_double H G key iv km sels sboxes rks _ _ hslice]
    rw [ih (block_idx + 1) (by omega)]
    rw [show (r + 1) * 32 = 32 + r * 32 from by ring, take_add', List.drop_drop]
    rw [show block_idx * 32 + 32 = (block_idx + 1) * 32 from by ring]

/-- C1: decrypting the encryption of a block-aligned plaintext with the
same parameters returns the plaintext, and decryption is literally the
identical function as encryption. -/
theorem claim_C1_roundtrip (H G : List Nat → Nat → List Nat)
    (P key iv : List Nat) (start : Nat) (km sels sboxes rks : List Nat)
    (haligned : P.length % 32 = 0) :
    decrypt_blocks_batch H G (encrypt_blocks_batch H G P key iv start km sels sboxes rks)
        key iv start km sels sboxes rks = P ∧
    decrypt_blocks_batch = encrypt_blocks_batch := by
  refine ⟨?_, rfl⟩
  have hP : P.length = P.length / 32 * 32 :=
    (Nat.div_mul_cancel (Nat.dvd_of_mod_eq_zero haligned)).symm
  unfold decrypt_blocks_batch encrypt_blocks_batch
  have hE : (encrypt_go H G key iv km sels sboxes rks P start 0 (P.length / 32)).length =
      P.length / 32 * 32 :=
    encrypt_go_length H G key iv km sels sboxes rks P start (P.length / 32) 0 (by omega)
  rw [hE, Nat.mul_div_cancel _ (by norm_num : (0:Nat) < 32)]
  rw [decrypt_go_roundtrip H G key iv km sels sboxes rks P start (P.length / 32) hP.symm.symm
    (P.length / 32) 0 (by omega)]
  rw [List.drop_zero]
  exact List.take_of_length_le (by omega)

theorem claim_C1_roundtrip_witness :
    (List.replicate 64 3 : List Nat).length % 32 = 0 ∧
    decrypt_blocks_batch (fun _ n => List.replicate n 1) (fun _ n => List.replicate n 0)
        (encrypt_blocks_batch (fun _ n => List.replicate n 1) (fun _ n => List.replicate n 0)
          (List.replicate 64 3) [2] [4] 5 (List.replicate 448 6) [1, 2] [] [])
        [2] [4] 5 (List.replicate 448 6) [1, 2] [] [] = List.replicate 64 3 :=
  ⟨by decide,
   (claim_C1_roundtrip (fun _ n => List.replicate n 1) (fun _ n => List.replicate n 0)
     (List.replicate 64 3) [2] [4] 5 (List.replicate 448 6) [1, 2] [] [] (by decide)).1⟩

/-! ### Degenerate golden vector (claim C6) -/

lemma foldl_fixpoint {α : Type} (f : CipherState → α → CipherState) (s : CipherState)
    (hf : ∀ a, f s a = s) : ∀ l : List α, l.foldl f s = s := by
  intro l
  induction l with
  | nil => rfl
  | cons x xs ih => rw [List.foldl_cons, hf, ih]

lemma execute_round_zero (r : Nat) (sels : List Nat) (sbox rk kc : List Nat)
    (hsels : sels = []) : execute_round_wasm zeroState r sels sbox rk kc = zeroState := by
  subst hsels
  unfold execute_round_wasm
  by_cases h : rk.length < 64 ∨ sbox.length < 256
  · rw [if_pos h]
  · rw [if_neg h]
    show inter_round_mix zeroState = zeroState
    decide

lemma batch_round_step_zero (sboxes rks kcs : List Nat) (r : Nat) :
    batch_round_step sboxes rks [] kcs zeroState r = zeroState := by
  unfold batch_round_step
  by_cases h : r * 256 + 256 ≤ sboxes.length ∧ r * 64 + 64 ≤ rks.length
  · rw [if_pos h]
    exact execute_round_zero r [] _ _ kcs rfl
  · rw [if_neg h]

set_option maxRecDepth 10000 in
lemma state_before_keystream_zero (H G : List Nat → Nat → List Nat)
    (sboxes rks : List Nat) :
    state_before_keystream H G [] [] (List.replicate 448 0) [] sboxes rks 0 = zeroState := by
  unfold state_before_keystream
  rw [show order_selectors H G [] [] [] 0 = [] from rfl]
  dsimp only
  rw [List.map_nil]
  rw [show ({ CipherState.new (List.replicate 448 0) with
      accumulator := List.replicate 128 0, accumulator_sum := 0 } : CipherState) =
    zeroState from by decide]
  exact foldl_fixpoint _ _ (batch_round_step_zero sboxes rks []) _

set_option maxRecDepth 10000 in
/-- C6: with 448 zero key-material bytes, no selectors, 24 zero round
keys, 24 identity S-boxes, empty key and iv, and start block 0: the
registers stay all-zero through every round, the accumulator stays zero,
and the ciphertext of one 32-zero-byte block is exactly
`hash_xof(448 zero bytes || 128 zero bytes || 8 zero bytes ||
"RUC-KEYSTREAM-V1", 32)`. -/
theorem claim_C6_golden_vector (H G : List Nat → Nat → List Nat)
    (hH : ∀ d n, (H d n).length = n) :
    (state_before_keystream H G [] [] (List.replicate 448 0) [] identity_sboxes
        (List.replicate 1536 0) 0).registers = List.replicate 7 (List.replicate 64 0) ∧
    (state_before_keystream H G [] [] (List.replicate 448 0) [] identity_sboxes
        (List.replicate 1536 0) 0).accumulator = List.replicate 128 0 ∧
    encrypt_blocks_batch H G (List.replicate 32 0) [] [] 0 (List.replicate 448 0) []
        identity_sboxes (List.replicate 1536 0) =
      H (List.replicate 584 0 ++ DOMAIN_KEYSTREAM) 32 := by
  have hzero := state_before_keystream_zero H G identity_sboxes (List.replicate 1536 0)
  refine ⟨by rw [hzero]; rfl, by rw [hzero]; rfl, ?_⟩
  have hks : generate_keystream H zeroState 0 = H (List.replicate 584 0 ++ DOMAIN_KEYSTREAM) 32 := by
    unfold generate_keystream
    rw [show (zeroState.registers.flatten ++ zeroState.accumulator ++ be_bytes8 0 ++
      DOMAIN_KEYSTREAM : List Nat) = List.replicate 584 0 ++ DOMAIN_KEYSTREAM from by decide]
  unfold encrypt_blocks_batch
  rw [show (List.replicate 32 0 : List Nat).length / 32 = 1 from by decide]
  rw [encrypt_go, if_neg (by decide)]
  rw [show encrypt_go H G [] [] (List.replicate 448 0) [] identity_sboxes
    (List.replicate 1536 0) (List.replicate 32 0) 0 1 0 = [] from rfl]
  rw [List.append_nil]
  unfold process_block
  dsimp only
  rw [hzero, hks]
  rw [show ((List.replicate 32 0 : List Nat).drop (0 * 32)).take 32 =
    List.replicate 32 0 from by decide]
  have hlen : (H (List.replicate 584 0 ++ DOMAIN_KEYSTREAM) 32).length = 32 := hH _ 32
  conv_rhs => rw [← map_getD_range (H (List.replicate 584 0 ++ DOMAIN_KEYSTREAM) 32), hlen]
  apply List.map_congr_left
  intro i hi
  have hi32 : i < 32 := List.mem_range.mp hi
  rw [if_pos (by simpa using hi32)]
  rw [show (List.replicate 32 0 : List Nat).getD i 0 = 0 from by
    rw [List.getD_eq_getElem _ _ (by simpa using hi32)]
    rw [List.getElem_replicate]]
  rw [Nat.zero_xor]

theorem claim_C6_golden_vector_witness :
    ((fun (_ : List Nat) (n : Nat) => List.replicate n 0) (List.replicate 584 0 ++
      DOMAIN_KEYSTREAM) 32).length = 32 ∧
    encrypt_blocks_batch (fun _ n => List.replicate n 0) (fun _ n => List.replicate n 0)
        (List.replicate 32 0) [] [] 0 (List.replicate 448 0) []
        identity_sboxes (List.replicate 1536 0) =
      (fun (_ : List Nat) (n : Nat) => List.replicate n 0)
        (List.replicate 584 0 ++ DOMAIN_KEYSTREAM) 32 :=
  ⟨by simp,
   (claim_C6_golden_vector (fun _ n => List.replicate n 0) (fun _ n => List.replicate n 0)
     (fun _ n => by simp)).2.2⟩

end RUC
